import Mathlib

/-!
# Verification of a binomial / Monte-Carlo option pricing library

Shallow embedding of `binomial_option.py`, `monte_carlo_option.py` (the two
pricing engines) over the real numbers.  Design choices of the embedding:

* Python floats are modelled as real numbers (exact arithmetic); Python
  `ValueError` / `ZeroDivisionError` control flow is modelled with `Except`.
* Python's float division raises `ZeroDivisionError` on a zero denominator,
  so each source-level division whose denominator can vanish is guarded by
  an explicit test in the embedding, in the same evaluation order as the
  source line it comes from.
* `random.Random.normalvariate` is modelled as an abstract draw stream
  `z : ℕ → ℝ`: the t-th call to the generator returns `z t`.  A fixed seed
  corresponds to a fixed stream.
* The payoff-expression evaluator (`compile` + `eval` on a restricted
  namespace) is modelled on a Python expression AST (`PExpr`) with Python's
  left-to-right, short-circuiting evaluation and the namespace dictionaries
  built exactly as in `build_expression_payoff`.  Identifiers are modelled
  by the enumerated type `PyName` (standing for Python strings).
-/

namespace OptionPricing

/-- `option_type` of `binomial_option.py` (`"call" | "put"`). -/
inductive OptionType
  | call
  | put
deriving DecidableEq

/-- `exercise` of `binomial_option.py` (`"european" | "american"`). -/
inductive ExerciseStyle
  | european
  | american
deriving DecidableEq

/-- Which parameter a `ValueError` from `_validate_inputs` complains about. -/
inductive ParamField
  | spot
  | strike
  | maturity
  | steps
  | volatility
  | paths
deriving DecidableEq

/-- Failure modes of `price_binomial_option`, in source order:
`_validate_inputs` raises `ValueError` (here `invalidParameter`), the
`dt == 0` guard raises `ValueError` (`zeroStepSize`), the division
`(growth - down) / (up - down)` raises `ZeroDivisionError` when `up = down`
(`zeroDivision`), and the probability bound check raises `ValueError`
(`invalidModel`). -/
inductive BinError
  | invalidParameter (f : ParamField)
  | zeroStepSize
  | zeroDivision
  | invalidModel
deriving DecidableEq

/-- The intrinsic value computed (twice) in `price_binomial_option`:
`max(asset_price - strike, 0.0)` for a call, `max(strike - asset_price, 0.0)`
for a put. -/
noncomputable def intrinsicValue (optionType : OptionType) (strike assetPrice : ℝ) : ℝ :=
  match optionType with
  | .call => max (assetPrice - strike) 0
  | .put => max (strike - assetPrice) 0

/-- The body of the inner loop of the backward induction: given the frontier
values `vLow = payoffs[i]` and `vHigh = payoffs[i+1]`, the new value written
to `payoffs[i]` at `(step, i)`. -/
noncomputable def nodeValue (spot strike up down probUp discount : ℝ)
    (optionType : OptionType) (exercise : ExerciseStyle)
    (step i : ℕ) (vLow vHigh : ℝ) : ℝ :=
  let continuation := discount * (probUp * vHigh + (1 - probUp) * vLow)
  match exercise with
  | .european => continuation
  | .american =>
      max continuation (intrinsicValue optionType strike (spot * up ^ i * down ^ (step - i)))

/-- One pass of the inner loop `for i in range(step + 1): payoffs[i] = ...`.
Each slot `i ≤ step` is overwritten from the old values at `i` and `i + 1`
(safe in place in the source because slot `i` is written only after being
read); slots beyond `step` are left untouched. -/
noncomputable def inductStep (g : ℕ → ℕ → ℝ → ℝ → ℝ) (step : ℕ) (v : List ℝ) : List ℝ :=
  ((List.range (step + 1)).map fun i => g step i (v.getD i 0) (v.getD (i + 1) 0))
    ++ v.drop (step + 1)

/-- The outer loop `for step in range(steps - 1, -1, -1)`: `backLoop g k v`
performs the passes for `step = k - 1` down to `0`. -/
noncomputable def backLoop (g : ℕ → ℕ → ℝ → ℝ → ℝ) : ℕ → List ℝ → List ℝ
  | 0, v => v
  | k + 1, v => backLoop g k (inductStep g k v)

/-- The one-step backward operator on node-value functions:
`continuation = discount * (probUp * φ (i+1) + (1 - probUp) * φ i)`,
exactly the european branch of the inner loop. -/
noncomputable def euroStep (probUp discount : ℝ) (φ : ℕ → ℝ) : ℕ → ℝ :=
  fun i => discount * (probUp * φ (i + 1) + (1 - probUp) * φ i)

/-- The terminal frontier built by the first loop of `price_binomial_option`:
`payoffs[i] = intrinsic(spot * up**i * down**(steps - i))` for `i in 0..steps`. -/
noncomputable def terminalPayoffs (spot strike up down : ℝ) (steps : ℕ)
    (optionType : OptionType) : List ℝ :=
  (List.range (steps + 1)).map fun i =>
    intrinsicValue optionType strike (spot * up ^ i * down ^ (steps - i))

/-- CRR up factor `up = exp(volatility * sqrt(dt))`, `dt = maturity / steps`. -/
noncomputable def crrUp (volatility maturity : ℝ) (steps : ℕ) : ℝ :=
  Real.exp (volatility * Real.sqrt (maturity / steps))

/-- CRR down factor `down = 1 / up`. -/
noncomputable def crrDown (volatility maturity : ℝ) (steps : ℕ) : ℝ :=
  1 / crrUp volatility maturity steps

/-- Per-step growth `growth = exp((rate - dividend_yield) * dt)`. -/
noncomputable def crrGrowth (rate dividendYield maturity : ℝ) (steps : ℕ) : ℝ :=
  Real.exp ((rate - dividendYield) * (maturity / steps))

/-- Risk-neutral probability `prob_up = (growth - down) / (up - down)`. -/
noncomputable def crrProbUp (rate dividendYield volatility maturity : ℝ) (steps : ℕ) : ℝ :=
  (crrGrowth rate dividendYield maturity steps - crrDown volatility maturity steps) /
    (crrUp volatility maturity steps - crrDown volatility maturity steps)

open Classical in
/-- `price_binomial_option` of `binomial_option.py`, with checks in source
order.  `steps` is a natural number (the source validates `steps < 1`, so
negative step counts are rejected the same way as `steps = 0`). -/
noncomputable def price_binomial_option (spot strike rate volatility maturity : ℝ)
    (steps : ℕ) (optionType : OptionType) (exercise : ExerciseStyle)
    (dividendYield : ℝ) : Except BinError ℝ :=
  if spot ≤ 0 then .error (.invalidParameter .spot)
  else if strike ≤ 0 then .error (.invalidParameter .strike)
  else if maturity ≤ 0 then .error (.invalidParameter .maturity)
  else if steps < 1 then .error (.invalidParameter .steps)
  else if maturity / steps = 0 then .error .zeroStepSize
  else
    let up := crrUp volatility maturity steps
    let down := crrDown volatility maturity steps
    if up - down = 0 then .error .zeroDivision
    else
      let probUp := crrProbUp rate dividendYield volatility maturity steps
      if ¬(0 ≤ probUp ∧ probUp ≤ 1) then .error .invalidModel
      else
        let discount := Real.exp (-rate * (maturity / steps))
        .ok ((backLoop
              (nodeValue spot strike up down probUp discount optionType exercise)
              steps (terminalPayoffs spot strike up down steps optionType)).getD 0 0)

/-! ## Monte Carlo engine (`monte_carlo_option.py`) -/

/-- Failure mode of `price_monte_carlo_option`: its `_validate_inputs`
raises `ValueError` (`invalidParameter`). -/
inductive MCError
  | invalidParameter (f : ParamField)
deriving DecidableEq

/-- The running price of `_simulate_path` after `k` steps: `prices[k]`.
Each step multiplies by `exp(drift + diffusion * z)` where `z` is the next
draw of the normal-variate stream. -/
noncomputable def pathPrice (spot drift diffusion : ℝ) (z : ℕ → ℝ) : ℕ → ℝ
  | 0 => spot
  | k + 1 => pathPrice spot drift diffusion z k * Real.exp (drift + diffusion * z k)

/-- `_simulate_path` of `monte_carlo_option.py`: the list
`[prices[0], ..., prices[steps]]` with `prices[0] = spot`,
`drift = (rate - dividend_yield - 0.5 * volatility * volatility) * dt` and
`diffusion = volatility * sqrt(dt)`.  `z` is the stream of values returned by
the generator's successive `normalvariate(0.0, 1.0)` calls. -/
noncomputable def simulate_path (spot rate volatility dividendYield maturity : ℝ)
    (steps : ℕ) (z : ℕ → ℝ) : List ℝ :=
  let dt := maturity / steps
  let drift := (rate - dividendYield - 0.5 * volatility * volatility) * dt
  let diffusion := volatility * Real.sqrt dt
  (List.range (steps + 1)).map (pathPrice spot drift diffusion z)

open Classical in
/-- `price_monte_carlo_option` of `monte_carlo_option.py`.  The single
generator `rng = random.Random(seed)` is modelled by the draw stream `z`;
trial `j` (0-based) consumes draws `z (j * steps), ..., z (j * steps + steps - 1)`
in order, as the sequential loop does.  The source returns
`discount * (sum(payoffs) / len(payoffs))` with `len(payoffs) = paths`. -/
noncomputable def price_monte_carlo_option (spot rate volatility maturity : ℝ)
    (steps paths : ℕ) (payoff : List ℝ → ℝ) (dividendYield : ℝ)
    (z : ℕ → ℝ) : Except MCError ℝ :=
  if spot ≤ 0 then .error (.invalidParameter .spot)
  else if volatility < 0 then .error (.invalidParameter .volatility)
  else if maturity ≤ 0 then .error (.invalidParameter .maturity)
  else if steps < 1 then .error (.invalidParameter .steps)
  else if paths < 1 then .error (.invalidParameter .paths)
  else
    let discount := Real.exp (-rate * maturity)
    .ok (discount *
      ((∑ j ∈ Finset.range paths,
          payoff (simulate_path spot rate volatility dividendYield maturity steps
            fun k => z (j * steps + k))) / paths))

/-! ## Payoff expression evaluator (`build_expression_payoff`)

The evaluator runs CPython `eval` on a compiled expression with
`safe_globals = {math functions, max, min, __builtins__: {}}` and
`local_vars = {path, s, st, spot, step, **extra_context}`.  We embed a
Python expression AST with CPython's left-to-right short-circuit
evaluation.  Python identifiers (strings) are modelled by `PyName`;
`PyName.other k` stands for any identifier different from the named ones.
The math-module namespace is modelled by a representative subset of its
public names (the claims under study do not depend on the exact list). -/

/-- Python identifiers appearing in payoff expressions and namespaces. -/
inductive PyName
  | path | s | st | spot | step
  | strike
  | nmax | nmin
  | mexp | mlog | msqrt | msin | mcos | mfabs | mpi | me
  | builtinsKey
  | other (k : ℕ)
deriving DecidableEq

/-- Whitelisted callables of the sandbox namespace. -/
inductive PyBuiltin
  | bmax | bmin | bexp | blog | bsqrt | bsin | bcos | bfabs
deriving DecidableEq

/-- Python values arising while evaluating a payoff expression. -/
inductive PyVal
  | num (x : ℝ)
  | pybool (b : Bool)
  | plist (xs : List ℝ)
  | builtin (b : PyBuiltin)
  | pydict

/-- Exceptions CPython `eval`/`float` can raise on the modelled fragment. -/
inductive EvalError
  | nameError (n : PyName)
  | typeError
  | valueError
  | indexError
deriving DecidableEq

/-- `compile(expression, _, "eval")` raising `SyntaxError`. -/
inductive CompileError
  | parseError
deriving DecidableEq

/-- Binary operators of the modelled expression fragment. -/
inductive BinOp
  | add | sub | mul | lt | le | gt
deriving DecidableEq

/-- Python expression AST (the fragment relevant to payoff expressions):
constants, names, arithmetic and comparison operators, short-circuiting
`or`/`and`, the conditional expression `t if c else e`, calls of one or two
arguments. -/
inductive PExpr
  | const (x : ℝ)
  | name (n : PyName)
  | binop (op : BinOp) (a b : PExpr)
  | orElse (a b : PExpr)
  | andAlso (a b : PExpr)
  | cond (c t e : PExpr)
  | call1 (f a : PExpr)
  | call2 (f a b : PExpr)

/-- Whether the expression mentions the identifier (anywhere). -/
def refersTo : PExpr → PyName → Bool
  | .const _, _ => false
  | .name m, n => m = n
  | .binop _ a b, n => refersTo a n || refersTo b n
  | .orElse a b, n => refersTo a n || refersTo b n
  | .andAlso a b, n => refersTo a n || refersTo b n
  | .cond c t e, n => refersTo c n || refersTo t n || refersTo e n
  | .call1 f a, n => refersTo f n || refersTo a n
  | .call2 f a b, n => refersTo f n || refersTo a n || refersTo b n

open Classical in
/-- Python truthiness of the modelled values (`bool(v)`): a number is truthy
iff nonzero, a list iff nonempty, functions are truthy, the empty dict is
falsy. -/
noncomputable def truthy : PyVal → Bool
  | .num x => if x = 0 then false else true
  | .pybool b => b
  | .plist xs => !xs.isEmpty
  | .builtin _ => true
  | .pydict => false

open Classical in
/-- Semantics of the binary operators on the modelled values; any other
operand combination raises `TypeError` (numbers and booleans mix as in
Python, where `True == 1` and `False == 0`). -/
noncomputable def asNumber : PyVal → Option ℝ
  | .num x => some x
  | .pybool b => some (if b then 1 else 0)
  | _ => none

open Classical in
noncomputable def applyBinOp (op : BinOp) (va vb : PyVal) : Except EvalError PyVal :=
  match asNumber va, asNumber vb with
  | some a, some b =>
      match op with
      | .add => .ok (.num (a + b))
      | .sub => .ok (.num (a - b))
      | .mul => .ok (.num (a * b))
      | .lt => .ok (.pybool (if a < b then true else false))
      | .le => .ok (.pybool (if a ≤ b then true else false))
      | .gt => .ok (.pybool (if b < a then true else false))
  | _, _ => .error .typeError

open Classical in
/-- Calling a value on one argument: the whitelisted `math` functions apply
to a number; `max`/`min` of a list take its extremum (`ValueError` when
empty, `TypeError` on a non-iterable), and non-callables raise `TypeError`. -/
noncomputable def applyCall1 (vf va : PyVal) : Except EvalError PyVal :=
  match vf with
  | .builtin b =>
      match b, va with
      | .bexp, .num x => .ok (.num (Real.exp x))
      | .blog, .num x => .ok (.num (Real.log x))
      | .bsqrt, .num x => .ok (.num (Real.sqrt x))
      | .bsin, .num x => .ok (.num (Real.sin x))
      | .bcos, .num x => .ok (.num (Real.cos x))
      | .bfabs, .num x => .ok (.num |x|)
      | .bmax, .plist xs =>
          match xs with
          | [] => .error .valueError
          | x :: rest => .ok (.num (rest.foldl max x))
      | .bmin, .plist xs =>
          match xs with
          | [] => .error .valueError
          | x :: rest => .ok (.num (rest.foldl min x))
      | _, _ => .error .typeError
  | _ => .error .typeError

open Classical in
/-- Calling a value on two arguments: only `max` and `min` of two numbers
(or booleans) are meaningful on the modelled fragment. -/
noncomputable def applyCall2 (vf va vb : PyVal) : Except EvalError PyVal :=
  match vf with
  | .builtin .bmax =>
      match asNumber va, asNumber vb with
      | some a, some b => .ok (.num (max a b))
      | _, _ => .error .typeError
  | .builtin .bmin =>
      match asNumber va, asNumber vb with
      | some a, some b => .ok (.num (min a b))
      | _, _ => .error .typeError
  | _ => .error .typeError

/-- `safe_globals = {**math_namespace, "max": max, "min": min, "__builtins__": {}}`. -/
noncomputable def safeGlobals : PyName → Option PyVal
  | .nmax => some (.builtin .bmax)
  | .nmin => some (.builtin .bmin)
  | .mexp => some (.builtin .bexp)
  | .mlog => some (.builtin .blog)
  | .msqrt => some (.builtin .bsqrt)
  | .msin => some (.builtin .bsin)
  | .mcos => some (.builtin .bcos)
  | .mfabs => some (.builtin .bfabs)
  | .mpi => some (.num Real.pi)
  | .me => some (.num (Real.exp 1))
  | .builtinsKey => some .pydict
  | _ => none

/-- The path-derived entries of `local_vars` (built only for a nonempty
path; with an empty path the source raises `IndexError` at `path[-1]`
while building the dictionary). -/
noncomputable def pathLocals (path : List ℝ) : PyName → Option PyVal
  | .path => some (.plist path)
  | .s => some (.num (path.getD (path.length - 1) 0))
  | .st => some (.num (path.getD (path.length - 1) 0))
  | .spot => some (.num (path.getD 0 0))
  | .step => some (.num ((path.length : ℝ) - 1))
  | _ => none

/-- `local_vars = {path, s, st, spot, step, **extra_context}`: keys of
`extra_context` are written last, so they override the path-derived
bindings. -/
noncomputable def localVars (path : List ℝ) (extraContext : PyName → Option PyVal)
    (n : PyName) : Option PyVal :=
  match extraContext n with
  | some v => some v
  | none => pathLocals path n

/-- CPython name resolution for `eval(code, safe_globals, local_vars)`:
locals first, then globals; a miss raises `NameError` (the `__builtins__`
of `safe_globals` is the empty dict, so no builtin name resolves). -/
noncomputable def lookupName (locals : PyName → Option PyVal) (n : PyName) :
    Except EvalError PyVal :=
  match locals n with
  | some v => .ok v
  | none =>
      match safeGlobals n with
      | some v => .ok v
      | none => .error (.nameError n)

open Classical in
/-- CPython evaluation of the modelled expression fragment: left-to-right
with exception propagation, short-circuiting `or`/`and` (returning the
deciding operand itself) and a lazily evaluated conditional expression. -/
noncomputable def evalExpr (locals : PyName → Option PyVal) : PExpr → Except EvalError PyVal
  | .const x => .ok (.num x)
  | .name n => lookupName locals n
  | .binop op a b =>
      match evalExpr locals a with
      | .error e => .error e
      | .ok va =>
          match evalExpr locals b with
          | .error e => .error e
          | .ok vb => applyBinOp op va vb
  | .orElse a b =>
      match evalExpr locals a with
      | .error e => .error e
      | .ok va => if truthy va then .ok va else evalExpr locals b
  | .andAlso a b =>
      match evalExpr locals a with
      | .error e => .error e
      | .ok va => if truthy va then evalExpr locals b else .ok va
  | .cond c t e =>
      match evalExpr locals c with
      | .error err => .error err
      | .ok vc => if truthy vc then evalExpr locals t else evalExpr locals e
  | .call1 f a =>
      match evalExpr locals f with
      | .error e => .error e
      | .ok vf =>
          match evalExpr locals a with
          | .error e => .error e
          | .ok va => applyCall1 vf va
  | .call2 f a b =>
      match evalExpr locals f with
      | .error e => .error e
      | .ok vf =>
          match evalExpr locals a with
          | .error e => .error e
          | .ok va =>
              match evalExpr locals b with
              | .error e => .error e
              | .ok vb => applyCall2 vf va vb

/-- `float(value)` applied to the evaluation result: numbers and booleans
convert, everything else raises `TypeError`. -/
noncomputable def toFloat : PyVal → Except EvalError ℝ
  | .num x => .ok x
  | .pybool b => .ok (if b then 1 else 0)
  | _ => .error .typeError

/-- The closure returned by `build_expression_payoff`:
`float(eval(code, safe_globals, local_vars))`. -/
noncomputable def exprPayoff (code : PExpr) (extraContext : PyName → Option PyVal)
    (path : List ℝ) : Except EvalError ℝ :=
  if path.isEmpty then .error .indexError
  else
    match evalExpr (localVars path extraContext) code with
    | .error e => .error e
    | .ok v => toFloat v

/-- `build_expression_payoff` of `monte_carlo_option.py`.  Its argument is
the result of `compile(expression, _, "eval")`, which succeeds exactly when
the input string parses as a single Python expression; the compiled code
object is represented by `some ast`, a `SyntaxError` by `none` (CPython's
parser itself is not part of this repository's code). -/
noncomputable def build_expression_payoff (compiled : Option PExpr)
    (extraContext : PyName → Option PyVal) :
    Except CompileError (List ℝ → Except EvalError ℝ) :=
  match compiled with
  | none => .error .parseError
  | some code => .ok (exprPayoff code extraContext)

/-! ## Lemmas about the backward induction -/

theorem inductStep_getD_le (g : ℕ → ℕ → ℝ → ℝ → ℝ) (step : ℕ) (v : List ℝ) (j : ℕ)
    (hj : j ≤ step) :
    (inductStep g step v).getD j 0 = g step j (v.getD j 0) (v.getD (j + 1) 0) := by
  unfold inductStep
  rw [List.getD_eq_getElem?_getD, List.getElem?_append,
    if_pos (by simpa using Nat.lt_succ_of_le hj)]
  simp [List.getElem?_range (Nat.lt_succ_of_le hj), List.getD_eq_getElem?_getD]

theorem inductStep_getD_gt (g : ℕ → ℕ → ℝ → ℝ → ℝ) (step : ℕ) (v : List ℝ) (j : ℕ)
    (hj : step < j) :
    (inductStep g step v).getD j 0 = v.getD j 0 := by
  unfold inductStep
  rw [List.getD_eq_getElem?_getD, List.getElem?_append,
    if_neg (by simpa using hj)]
  rw [List.length_map, List.length_range, List.getElem?_drop,
    Nat.add_sub_cancel' (Nat.succ_le_of_lt hj), List.getD_eq_getElem?_getD]

theorem inductStep_length (g : ℕ → ℕ → ℝ → ℝ → ℝ) (step : ℕ) (v : List ℝ) :
    (inductStep g step v).length = step + 1 + (v.length - (step + 1)) := by
  simp [inductStep]

/-- The frontier list never shrinks: the backward pass rewrites a prefix of
the array in place, so the list length is preserved as long as each pass
updates no more slots than exist. -/
theorem backLoop_length (g : ℕ → ℕ → ℝ → ℝ → ℝ) :
    ∀ (k : ℕ) (v : List ℝ), k ≤ v.length → (backLoop g k v).length = v.length := by
  intro k
  induction k with
  | zero => intro v _; rfl
  | succ k ih =>
      intro v hv
      have hlen : (inductStep g k v).length = v.length := by
        rw [inductStep_length]
        omega
      rw [backLoop, ih (inductStep g k v) (by omega)]
      exact hlen

/-- `k` backward steps at node `i` read the input only at `i, ..., i + k`. -/
theorem euroStep_iterate_congr (p δ : ℝ) :
    ∀ (k : ℕ) (φ ψ : ℕ → ℝ) (i : ℕ),
      (∀ j, j ≤ k → φ (i + j) = ψ (i + j)) →
      (euroStep p δ)^[k] φ i = (euroStep p δ)^[k] ψ i := by
  intro k
  induction k with
  | zero =>
      intro φ ψ i h
      simpa using h 0 (Nat.le_refl 0)
  | succ k ih =>
      intro φ ψ i h
      rw [Function.iterate_succ_apply, Function.iterate_succ_apply]
      refine ih _ _ i ?_
      intro j hj
      show δ * (p * φ (i + j + 1) + (1 - p) * φ (i + j)) =
        δ * (p * ψ (i + j + 1) + (1 - p) * ψ (i + j))
      have h1 : φ (i + (j + 1)) = ψ (i + (j + 1)) := h (j + 1) (by omega)
      have h2 : φ (i + j) = ψ (i + j) := h j (by omega)
      rw [show i + j + 1 = i + (j + 1) by omega, h1, h2]

/-- Pascal-style recursion for binomially weighted sums. -/
theorem binom_weight_succ (p q : ℝ) (k : ℕ) (ψ : ℕ → ℝ) :
    ∑ j ∈ Finset.range (k + 2), (Nat.choose (k + 1) j : ℝ) * p ^ j * q ^ (k + 1 - j) * ψ j =
      q * ∑ j ∈ Finset.range (k + 1), (Nat.choose k j : ℝ) * p ^ j * q ^ (k - j) * ψ j
        + p * ∑ j ∈ Finset.range (k + 1),
            (Nat.choose k j : ℝ) * p ^ j * q ^ (k - j) * ψ (j + 1) := by
  rw [Finset.sum_range_succ' (fun j => (Nat.choose (k + 1) j : ℝ) * p ^ j * q ^ (k + 1 - j) * ψ j)]
  rw [Finset.mul_sum, Finset.mul_sum]
  have hsplit : ∀ j ∈ Finset.range (k + 1),
      (Nat.choose (k + 1) (j + 1) : ℝ) * p ^ (j + 1) * q ^ (k + 1 - (j + 1)) * ψ (j + 1) =
        (Nat.choose k j : ℝ) * p ^ (j + 1) * q ^ (k - j) * ψ (j + 1)
          + (Nat.choose k (j + 1) : ℝ) * p ^ (j + 1) * q ^ (k - j) * ψ (j + 1) := by
    intro j _
    rw [Nat.choose_succ_succ, Nat.succ_sub_succ]
    push_cast
    ring
  rw [Finset.sum_congr rfl hsplit, Finset.sum_add_distrib]
  have hq : ∀ j ∈ Finset.range (k + 1),
      q * ((Nat.choose k j : ℝ) * p ^ j * q ^ (k - j) * ψ j) =
        (Nat.choose k j : ℝ) * p ^ j * q ^ (k + 1 - j) * ψ j := by
    intro j hj
    have hjk : j ≤ k := by
      have := Finset.mem_range.mp hj
      omega
    rw [show k + 1 - j = (k - j) + 1 by omega, pow_succ]
    ring
  rw [Finset.sum_congr rfl hq]
  rw [Finset.sum_range_succ' (fun j => (Nat.choose k j : ℝ) * p ^ j * q ^ (k + 1 - j) * ψ j)]
  have hshift : ∀ j ∈ Finset.range k,
      (Nat.choose k (j + 1) : ℝ) * p ^ (j + 1) * q ^ (k + 1 - (j + 1)) * ψ (j + 1) =
        (Nat.choose k (j + 1) : ℝ) * p ^ (j + 1) * q ^ (k - j) * ψ (j + 1) := by
    intro j _
    rw [Nat.succ_sub_succ]
  rw [Finset.sum_congr rfl hshift]
  have hlast : ∑ j ∈ Finset.range (k + 1),
      (Nat.choose k (j + 1) : ℝ) * p ^ (j + 1) * q ^ (k - j) * ψ (j + 1) =
        ∑ j ∈ Finset.range k,
          (Nat.choose k (j + 1) : ℝ) * p ^ (j + 1) * q ^ (k - j) * ψ (j + 1) := by
    rw [Finset.sum_range_succ, Nat.choose_succ_self]
    simp
  have hp : ∀ j ∈ Finset.range (k + 1),
      p * ((Nat.choose k j : ℝ) * p ^ j * q ^ (k - j) * ψ (j + 1)) =
        (Nat.choose k j : ℝ) * p ^ (j + 1) * q ^ (k - j) * ψ (j + 1) := by
    intro j _
    rw [pow_succ]
    ring
  rw [Finset.sum_congr rfl hp, hlast]
  push_cast [Nat.choose_zero_right]
  ring

/-- Closed form of `k` iterations of the european backward step: the
binomially weighted, `discount^k`-discounted sum of the inputs. -/
theorem euroStep_iterate_eq (p δ : ℝ) :
    ∀ (k : ℕ) (φ : ℕ → ℝ) (i : ℕ),
      (euroStep p δ)^[k] φ i =
        δ ^ k * ∑ j ∈ Finset.range (k + 1),
          (Nat.choose k j : ℝ) * p ^ j * (1 - p) ^ (k - j) * φ (i + j) := by
  intro k
  induction k with
  | zero =>
      intro φ i
      simp
  | succ k ih =>
      intro φ i
      rw [Function.iterate_succ_apply']
      show δ * (p * (euroStep p δ)^[k] φ (i + 1) + (1 - p) * (euroStep p δ)^[k] φ i) = _
      rw [ih φ (i + 1), ih φ i]
      rw [show k + 1 + 1 = k + 2 by omega, binom_weight_succ p (1 - p) k (fun j => φ (i + j))]
      have h1 : ∀ j ∈ Finset.range (k + 1),
          (Nat.choose k j : ℝ) * p ^ j * (1 - p) ^ (k - j) * φ (i + 1 + j) =
            (Nat.choose k j : ℝ) * p ^ j * (1 - p) ^ (k - j) * φ (i + (j + 1)) := by
        intro j _
        rw [show i + 1 + j = i + (j + 1) by omega]
      rw [Finset.sum_congr rfl h1]
      ring

/-- Element `i ≤ steps` of the terminal frontier. -/
theorem terminalPayoffs_getD (spot strike up down : ℝ) (steps : ℕ) (ot : OptionType)
    (i : ℕ) (hi : i < steps + 1) :
    (terminalPayoffs spot strike up down steps ot).getD i 0 =
      intrinsicValue ot strike (spot * up ^ i * down ^ (steps - i)) := by
  unfold terminalPayoffs
  rw [List.getD_eq_getElem?_getD]
  simp [List.getElem?_range hi]

/-- The root of the european backward pass is the `k`-fold backward operator
applied to the initial frontier, read at node 0. -/
theorem backLoop_euro_getD_zero (spot strike up down p δ : ℝ) (ot : OptionType) :
    ∀ (k : ℕ) (v : List ℝ),
      (backLoop (nodeValue spot strike up down p δ ot .european) k v).getD 0 0 =
        (euroStep p δ)^[k] (fun j => v.getD j 0) 0 := by
  intro k
  induction k with
  | zero =>
      intro v
      rfl
  | succ k ih =>
      intro v
      rw [backLoop, ih, Function.iterate_succ_apply]
      refine euroStep_iterate_congr p δ k _ _ 0 ?_
      intro j hj
      simp only [Nat.zero_add]
      rw [inductStep_getD_le _ _ _ _ hj]
      rfl

/-- With a positive maturity, at least one step and a nonzero volatility the
up and down factors differ, so the probability's denominator is nonzero. -/
theorem crr_up_sub_down_ne_zero (volatility maturity : ℝ) (steps : ℕ)
    (hmat : 0 < maturity) (hsteps : 1 ≤ steps) (hvol : volatility ≠ 0) :
    crrUp volatility maturity steps - crrDown volatility maturity steps ≠ 0 := by
  have hdt : 0 < maturity / (steps : ℝ) :=
    div_pos hmat (by exact_mod_cast Nat.lt_of_lt_of_le Nat.zero_lt_one hsteps)
  have hx : volatility * Real.sqrt (maturity / steps) ≠ 0 :=
    mul_ne_zero hvol (ne_of_gt (Real.sqrt_pos.mpr hdt))
  intro h
  have hdown : crrDown volatility maturity steps =
      Real.exp (-(volatility * Real.sqrt (maturity / steps))) := by
    rw [crrDown, crrUp, Real.exp_neg, one_div]
  rw [crrUp, hdown, sub_eq_zero] at h
  have hxx := Real.exp_eq_exp.mp h
  apply hx
  linarith

/-- C1: for every valid parameter set (positive spot, strike and maturity, at
least one step, a well-defined risk-neutral probability lying in `[0, 1]`),
`price_binomial_option` with european exercise returns exactly the
closed-form discounted expectation over the terminal binomial distribution:
`exp(-rate * maturity) * ∑ i ≤ steps, C(steps, i) p^i (1-p)^(steps-i) *
payoff(spot * up^i * down^(steps-i))`. -/
theorem price_binomial_european_closed_form
    (spot strike rate volatility maturity dividendYield : ℝ) (steps : ℕ)
    (optionType : OptionType)
    (hspot : 0 < spot) (hstrike : 0 < strike) (hmat : 0 < maturity) (hsteps : 1 ≤ steps)
    (hvol : volatility ≠ 0)
    (hp0 : 0 ≤ crrProbUp rate dividendYield volatility maturity steps)
    (hp1 : crrProbUp rate dividendYield volatility maturity steps ≤ 1) :
    price_binomial_option spot strike rate volatility maturity steps optionType
        .european dividendYield =
      .ok (Real.exp (-(rate * maturity)) *
        ∑ i ∈ Finset.range (steps + 1),
          (Nat.choose steps i : ℝ) *
            crrProbUp rate dividendYield volatility maturity steps ^ i *
            (1 - crrProbUp rate dividendYield volatility maturity steps) ^ (steps - i) *
            intrinsicValue optionType strike
              (spot * crrUp volatility maturity steps ^ i *
                crrDown volatility maturity steps ^ (steps - i))) := by
  have hscast : (0 : ℝ) < (steps : ℝ) := by exact_mod_cast Nat.lt_of_lt_of_le Nat.zero_lt_one hsteps
  have hdt : 0 < maturity / (steps : ℝ) := div_pos hmat hscast
  simp only [price_binomial_option]
  rw [if_neg (not_le.mpr hspot), if_neg (not_le.mpr hstrike), if_neg (not_le.mpr hmat),
    if_neg (by omega : ¬ steps < 1), if_neg (ne_of_gt hdt),
    if_neg (crr_up_sub_down_ne_zero volatility maturity steps hmat hsteps hvol),
    if_neg (not_not_intro ⟨hp0, hp1⟩)]
  congr 1
  rw [backLoop_euro_getD_zero, euroStep_iterate_eq]
  have hdisc : Real.exp (-rate * (maturity / steps)) ^ steps = Real.exp (-(rate * maturity)) := by
    rw [← Real.exp_nat_mul]
    congr 1
    field_simp
    ring
  rw [hdisc]
  congr 1
  refine Finset.sum_congr rfl ?_
  intro j hj
  have hjlt : j < steps + 1 := Finset.mem_range.mp hj
  simp only [Nat.zero_add]
  rw [terminalPayoffs_getD _ _ _ _ _ _ _ hjlt]

/-- Witness for C1 at `spot = strike = 1`, `rate = 0`, `volatility = 1`,
`maturity = 1`, `steps = 1`, zero dividend yield, call. -/
theorem price_binomial_european_closed_form_witness :
    price_binomial_option 1 1 0 1 1 1 OptionType.call ExerciseStyle.european 0 =
      .ok (Real.exp (-(0 * 1)) *
        ∑ i ∈ Finset.range 2,
          (Nat.choose 1 i : ℝ) * crrProbUp 0 0 1 1 1 ^ i * (1 - crrProbUp 0 0 1 1 1) ^ (1 - i) *
            intrinsicValue OptionType.call 1
              (1 * crrUp 1 1 1 ^ i * crrDown 1 1 1 ^ (1 - i))) := by
  have e1 : crrUp 1 1 (1 : ℕ) = Real.exp 1 := by
    rw [crrUp]
    norm_num
  have e2 : crrDown 1 1 (1 : ℕ) = Real.exp (-1) := by
    rw [crrDown, e1, Real.exp_neg, one_div]
  have e3 : crrGrowth 0 0 1 (1 : ℕ) = 1 := by
    rw [crrGrowth]
    norm_num
  have hub : crrProbUp 0 0 1 1 1 = (1 - Real.exp (-1)) / (Real.exp 1 - Real.exp (-1)) := by
    rw [crrProbUp, e1, e2, e3]
  have hden : 0 < Real.exp 1 - Real.exp (-1) := by
    have := Real.exp_lt_exp.mpr (show (-1 : ℝ) < 1 by norm_num)
    linarith
  have hnum : 0 ≤ 1 - Real.exp (-1) := by
    have := Real.exp_le_one_iff.mpr (show (-1 : ℝ) ≤ 0 by norm_num)
    linarith
  refine price_binomial_european_closed_form 1 1 0 1 1 0 1 OptionType.call
    (by norm_num) (by norm_num) (by norm_num) (by norm_num) (by norm_num) ?_ ?_
  · rw [hub]
    exact div_nonneg hnum hden.le
  · rw [hub, div_le_one hden]
    have := Real.one_le_exp (show (0 : ℝ) ≤ 1 by norm_num)
    linarith

/-- On parameter sets passing every check, `price_binomial_option` returns
the root of the backward pass over the terminal frontier. -/
theorem price_binomial_option_ok_eq
    (spot strike rate volatility maturity dividendYield : ℝ) (steps : ℕ)
    (optionType : OptionType) (exercise : ExerciseStyle)
    (hspot : 0 < spot) (hstrike : 0 < strike) (hmat : 0 < maturity) (hsteps : 1 ≤ steps)
    (hvol : volatility ≠ 0)
    (hp0 : 0 ≤ crrProbUp rate dividendYield volatility maturity steps)
    (hp1 : crrProbUp rate dividendYield volatility maturity steps ≤ 1) :
    price_binomial_option spot strike rate volatility maturity steps optionType
        exercise dividendYield =
      .ok ((backLoop
            (nodeValue spot strike (crrUp volatility maturity steps)
              (crrDown volatility maturity steps)
              (crrProbUp rate dividendYield volatility maturity steps)
              (Real.exp (-rate * (maturity / steps))) optionType exercise)
            steps
            (terminalPayoffs spot strike (crrUp volatility maturity steps)
              (crrDown volatility maturity steps) steps optionType)).getD 0 0) := by
  have hscast : (0 : ℝ) < (steps : ℝ) := by exact_mod_cast Nat.lt_of_lt_of_le Nat.zero_lt_one hsteps
  have hdt : 0 < maturity / (steps : ℝ) := div_pos hmat hscast
  simp only [price_binomial_option]
  rw [if_neg (not_le.mpr hspot), if_neg (not_le.mpr hstrike), if_neg (not_le.mpr hmat),
    if_neg (by omega : ¬ steps < 1), if_neg (ne_of_gt hdt),
    if_neg (crr_up_sub_down_ne_zero volatility maturity steps hmat hsteps hvol),
    if_neg (not_not_intro ⟨hp0, hp1⟩)]

/-- With zero drift (`rate = dividend_yield = 0`) and positive volatility the
risk-neutral probability always lies in `[0, 1]`. -/
theorem crrProbUp_zero_drift_mem (volatility maturity : ℝ) (steps : ℕ)
    (hvol : 0 < volatility) (hmat : 0 < maturity) (hsteps : 1 ≤ steps) :
    0 ≤ crrProbUp 0 0 volatility maturity steps ∧
      crrProbUp 0 0 volatility maturity steps ≤ 1 := by
  have hscast : (0 : ℝ) < (steps : ℝ) := by exact_mod_cast Nat.lt_of_lt_of_le Nat.zero_lt_one hsteps
  have hdt : 0 < maturity / (steps : ℝ) := div_pos hmat hscast
  have hx : 0 < volatility * Real.sqrt (maturity / steps) :=
    mul_pos hvol (Real.sqrt_pos.mpr hdt)
  have hup : crrUp volatility maturity steps = Real.exp (volatility * Real.sqrt (maturity / steps)) := rfl
  have hdown : crrDown volatility maturity steps =
      Real.exp (-(volatility * Real.sqrt (maturity / steps))) := by
    rw [crrDown, crrUp, Real.exp_neg, one_div]
  have hgrowth : crrGrowth 0 0 maturity steps = 1 := by
    rw [crrGrowth]
    norm_num
  have hd1 : Real.exp (-(volatility * Real.sqrt (maturity / steps))) ≤ 1 :=
    Real.exp_le_one_iff.mpr (by linarith)
  have hu1 : 1 ≤ Real.exp (volatility * Real.sqrt (maturity / steps)) :=
    Real.one_le_exp (by linarith)
  have hden : 0 < Real.exp (volatility * Real.sqrt (maturity / steps)) -
      Real.exp (-(volatility * Real.sqrt (maturity / steps))) := by
    have := Real.exp_lt_exp.mpr (show -(volatility * Real.sqrt (maturity / steps)) <
      volatility * Real.sqrt (maturity / steps) by linarith)
    linarith
  constructor
  · rw [crrProbUp, hgrowth, hup, hdown]
    exact div_nonneg (by linarith) hden.le
  · rw [crrProbUp, hgrowth, hup, hdown, div_le_one hden]
    linarith

/-- Pointwise dominance of frontiers is preserved by the whole backward pass,
for node updates `g₂` dominating `g₁`. -/
theorem backLoop_getD_mono (g1 g2 : ℕ → ℕ → ℝ → ℝ → ℝ)
    (hg : ∀ s i a1 b1 a2 b2, a1 ≤ a2 → b1 ≤ b2 → g1 s i a1 b1 ≤ g2 s i a2 b2) :
    ∀ (k : ℕ) (v w : List ℝ), (∀ j, v.getD j 0 ≤ w.getD j 0) →
      ∀ j, (backLoop g1 k v).getD j 0 ≤ (backLoop g2 k w).getD j 0 := by
  intro k
  induction k with
  | zero =>
      intro v w h j
      exact h j
  | succ k ih =>
      intro v w h j
      rw [backLoop, backLoop]
      refine ih _ _ ?_ j
      intro i
      by_cases hi : i ≤ k
      · rw [inductStep_getD_le _ _ _ _ hi, inductStep_getD_le _ _ _ _ hi]
        exact hg k i _ _ _ _ (h i) (h (i + 1))
      · rw [inductStep_getD_gt _ _ _ _ (by omega), inductStep_getD_gt _ _ _ _ (by omega)]
        exact h i

/-- The american node update dominates the european one whenever the
discount factor is nonnegative and the probability lies in `[0, 1]`. -/
theorem nodeValue_euro_le_amer (spot strike up down p δ : ℝ) (ot : OptionType)
    (hδ : 0 ≤ δ) (hp0 : 0 ≤ p) (hp1 : p ≤ 1)
    (s i : ℕ) (a1 b1 a2 b2 : ℝ) (ha : a1 ≤ a2) (hb : b1 ≤ b2) :
    nodeValue spot strike up down p δ ot .european s i a1 b1 ≤
      nodeValue spot strike up down p δ ot .american s i a2 b2 := by
  have hcont : δ * (p * b1 + (1 - p) * a1) ≤ δ * (p * b2 + (1 - p) * a2) := by
    apply mul_le_mul_of_nonneg_left _ hδ
    have h1 : p * b1 ≤ p * b2 := mul_le_mul_of_nonneg_left hb hp0
    have h2 : (1 - p) * a1 ≤ (1 - p) * a2 := mul_le_mul_of_nonneg_left ha (by linarith)
    linarith
  calc nodeValue spot strike up down p δ ot .european s i a1 b1
      = δ * (p * b1 + (1 - p) * a1) := rfl
    _ ≤ δ * (p * b2 + (1 - p) * a2) := hcont
    _ ≤ nodeValue spot strike up down p δ ot .american s i a2 b2 := le_max_left _ _

/-- C5: for every parameter set accepted by `price_binomial_option`, the
american price is at least the european price computed from the same
parameters (early exercise has nonnegative value). -/
theorem price_binomial_american_ge_european
    (spot strike rate volatility maturity dividendYield : ℝ) (steps : ℕ)
    (optionType : OptionType)
    (hspot : 0 < spot) (hstrike : 0 < strike) (hmat : 0 < maturity) (hsteps : 1 ≤ steps)
    (hvol : volatility ≠ 0)
    (hp0 : 0 ≤ crrProbUp rate dividendYield volatility maturity steps)
    (hp1 : crrProbUp rate dividendYield volatility maturity steps ≤ 1) :
    ∃ e a, price_binomial_option spot strike rate volatility maturity steps optionType
        .european dividendYield = .ok e ∧
      price_binomial_option spot strike rate volatility maturity steps optionType
        .american dividendYield = .ok a ∧
      e ≤ a := by
  refine ⟨_, _,
    price_binomial_option_ok_eq spot strike rate volatility maturity dividendYield steps
      optionType .european hspot hstrike hmat hsteps hvol hp0 hp1,
    price_binomial_option_ok_eq spot strike rate volatility maturity dividendYield steps
      optionType .american hspot hstrike hmat hsteps hvol hp0 hp1, ?_⟩
  exact backLoop_getD_mono _ _
    (nodeValue_euro_le_amer spot strike (crrUp volatility maturity steps)
      (crrDown volatility maturity steps)
      (crrProbUp rate dividendYield volatility maturity steps)
      (Real.exp (-rate * (maturity / steps))) optionType (Real.exp_pos _).le hp0 hp1)
    steps _ _ (fun _ => le_refl _) 0

/-- Witness for C5 at `spot = strike = 1`, `rate = 0`, `volatility = 1`,
`maturity = 1`, `steps = 1`, zero dividend yield, put. -/
theorem price_binomial_american_ge_european_witness :
    ∃ e a, price_binomial_option 1 1 0 1 1 1 OptionType.put ExerciseStyle.european 0 = .ok e ∧
      price_binomial_option 1 1 0 1 1 1 OptionType.put ExerciseStyle.american 0 = .ok a ∧
      e ≤ a := by
  obtain ⟨h0, h1⟩ := crrProbUp_zero_drift_mem 1 1 1 (by norm_num) (by norm_num) (by norm_num)
  exact price_binomial_american_ge_european 1 1 0 1 1 0 1 OptionType.put
    (by norm_num) (by norm_num) (by norm_num) (by norm_num) (by norm_num) h0 h1

/-- C6 (amended): the backward induction of `price_binomial_option` keeps a
single array of FIXED length `steps + 1`: each pass overwrites the prefix
`0..step` in place and leaves the later slots untouched, the length never
changes (so memory is linear in `steps`), and the returned value is the
element at index 0 of the final array — not a sole remaining element. -/
theorem price_binomial_frontier_invariant
    (spot strike rate volatility maturity dividendYield : ℝ) (steps : ℕ)
    (optionType : OptionType) (exercise : ExerciseStyle)
    (hspot : 0 < spot) (hstrike : 0 < strike) (hmat : 0 < maturity) (hsteps : 1 ≤ steps)
    (hvol : volatility ≠ 0)
    (hp0 : 0 ≤ crrProbUp rate dividendYield volatility maturity steps)
    (hp1 : crrProbUp rate dividendYield volatility maturity steps ≤ 1) :
    (∀ (g : ℕ → ℕ → ℝ → ℝ → ℝ) (k : ℕ) (v : List ℝ), k ≤ v.length →
        (backLoop g k v).length = v.length) ∧
    (∀ (g : ℕ → ℕ → ℝ → ℝ → ℝ) (step : ℕ) (v : List ℝ) (j : ℕ), step < j →
        (inductStep g step v).getD j 0 = v.getD j 0) ∧
    (backLoop
        (nodeValue spot strike (crrUp volatility maturity steps)
          (crrDown volatility maturity steps)
          (crrProbUp rate dividendYield volatility maturity steps)
          (Real.exp (-rate * (maturity / steps))) optionType exercise)
        steps
        (terminalPayoffs spot strike (crrUp volatility maturity steps)
          (crrDown volatility maturity steps) steps optionType)).length = steps + 1 ∧
    price_binomial_option spot strike rate volatility maturity steps optionType
        exercise dividendYield =
      .ok ((backLoop
            (nodeValue spot strike (crrUp volatility maturity steps)
              (crrDown volatility maturity steps)
              (crrProbUp rate dividendYield volatility maturity steps)
              (Real.exp (-rate * (maturity / steps))) optionType exercise)
            steps
            (terminalPayoffs spot strike (crrUp volatility maturity steps)
              (crrDown volatility maturity steps) steps optionType)).getD 0 0) := by
  refine ⟨backLoop_length, inductStep_getD_gt, ?_, ?_⟩
  · rw [backLoop_length _ steps _ (by simp [terminalPayoffs])]
    simp [terminalPayoffs]
  · exact price_binomial_option_ok_eq spot strike rate volatility maturity dividendYield steps
      optionType exercise hspot hstrike hmat hsteps hvol hp0 hp1

/-- Witness for the amended C6 at `spot = strike = 1`, `rate = 0`,
`volatility = 1`, `maturity = 1`, `steps = 1`, zero dividend yield. -/
theorem price_binomial_frontier_invariant_witness :
    (backLoop
        (nodeValue 1 1 (crrUp 1 1 1) (crrDown 1 1 1) (crrProbUp 0 0 1 1 1)
          (Real.exp (-0 * (1 / ((1 : ℕ) : ℝ)))) OptionType.call ExerciseStyle.european)
        1 (terminalPayoffs 1 1 (crrUp 1 1 1) (crrDown 1 1 1) 1 OptionType.call)).length = 1 + 1 := by
  obtain ⟨h0, h1⟩ := crrProbUp_zero_drift_mem 1 1 1 (by norm_num) (by norm_num) (by norm_num)
  exact (price_binomial_frontier_invariant 1 1 0 1 1 0 1 OptionType.call ExerciseStyle.european
    (by norm_num) (by norm_num) (by norm_num) (by norm_num) (by norm_num) h0 h1).2.2.1

/-- C6 counterexample: with `spot = strike = maturity = volatility = 1`,
`rate = 0`, `steps = 2`, the frontier after the full backward pass still has
3 elements (the array never shrinks), contradicting the claim that after
processing step 0 only the root value remains; the pipeline nevertheless
reads its result from index 0 of that length-3 array. -/
theorem price_binomial_frontier_counterexample :
    (backLoop
        (nodeValue 1 1 (crrUp 1 1 2) (crrDown 1 1 2) (crrProbUp 0 0 1 1 2)
          (Real.exp (-0 * (1 / ((2 : ℕ) : ℝ)))) OptionType.call ExerciseStyle.european)
        2 (terminalPayoffs 1 1 (crrUp 1 1 2) (crrDown 1 1 2) 2 OptionType.call)).length = 3 ∧
    (3 : ℕ) ≠ 1 ∧
    price_binomial_option 1 1 0 1 1 2 OptionType.call ExerciseStyle.european 0 =
      .ok ((backLoop
            (nodeValue 1 1 (crrUp 1 1 2) (crrDown 1 1 2) (crrProbUp 0 0 1 1 2)
              (Real.exp (-0 * (1 / ((2 : ℕ) : ℝ)))) OptionType.call ExerciseStyle.european)
            2 (terminalPayoffs 1 1 (crrUp 1 1 2) (crrDown 1 1 2) 2 OptionType.call)).getD 0 0) := by
  obtain ⟨h0, h1⟩ := crrProbUp_zero_drift_mem 1 1 2 (by norm_num) (by norm_num) (by norm_num)
  refine ⟨?_, by norm_num, ?_⟩
  · rw [backLoop_length _ 2 _ (by simp [terminalPayoffs])]
    simp [terminalPayoffs]
  · exact price_binomial_option_ok_eq 1 1 0 1 1 0 2 OptionType.call ExerciseStyle.european
      (by norm_num) (by norm_num) (by norm_num) (by norm_num) (by norm_num) h0 h1

/-- Given a positive maturity and at least one step, the probability's
denominator vanishes exactly at zero volatility. -/
theorem crr_up_sub_down_eq_zero_iff (volatility maturity : ℝ) (steps : ℕ)
    (hmat : 0 < maturity) (hsteps : 1 ≤ steps) :
    crrUp volatility maturity steps - crrDown volatility maturity steps = 0 ↔
      volatility = 0 := by
  constructor
  · intro h
    by_contra hv
    exact crr_up_sub_down_ne_zero volatility maturity steps hmat hsteps hv h
  · intro h
    subst h
    rw [crrUp, crrDown, crrUp]
    norm_num

open Classical in
/-- Once the four parameter checks pass, the outcome of
`price_binomial_option` is decided by the two derived-quantity guards. -/
theorem price_binomial_option_cases
    (spot strike rate volatility maturity dividendYield : ℝ) (steps : ℕ)
    (optionType : OptionType) (exercise : ExerciseStyle)
    (hspot : 0 < spot) (hstrike : 0 < strike) (hmat : 0 < maturity) (hsteps : 1 ≤ steps) :
    price_binomial_option spot strike rate volatility maturity steps optionType
        exercise dividendYield =
      if crrUp volatility maturity steps - crrDown volatility maturity steps = 0 then
        .error .zeroDivision
      else if ¬(0 ≤ crrProbUp rate dividendYield volatility maturity steps ∧
          crrProbUp rate dividendYield volatility maturity steps ≤ 1) then
        .error .invalidModel
      else
        .ok ((backLoop
              (nodeValue spot strike (crrUp volatility maturity steps)
                (crrDown volatility maturity steps)
                (crrProbUp rate dividendYield volatility maturity steps)
                (Real.exp (-rate * (maturity / steps))) optionType exercise)
              steps
              (terminalPayoffs spot strike (crrUp volatility maturity steps)
                (crrDown volatility maturity steps) steps optionType)).getD 0 0) := by
  have hscast : (0 : ℝ) < (steps : ℝ) := by exact_mod_cast Nat.lt_of_lt_of_le Nat.zero_lt_one hsteps
  have hdt : 0 < maturity / (steps : ℝ) := div_pos hmat hscast
  simp only [price_binomial_option]
  rw [if_neg (not_le.mpr hspot), if_neg (not_le.mpr hstrike), if_neg (not_le.mpr hmat),
    if_neg (by omega : ¬ steps < 1), if_neg (ne_of_gt hdt)]

/-- C3 counterexample: `spot = strike = maturity = 1`, `steps = 1`,
`rate = 0`, and `volatility = 0` passes all four parameter checks (the
spec's data model admits zero volatility), yet the source crashes with
`ZeroDivisionError` at `prob_up = (growth - down) / (up - down)` — it
neither raises `InvalidParameter`/`InvalidModel` nor returns a value. -/
theorem price_binomial_zero_volatility_counterexample :
    price_binomial_option 1 1 0 0 1 1 OptionType.call ExerciseStyle.european 0 =
      .error BinError.zeroDivision := by
  rw [price_binomial_option_cases 1 1 0 0 1 0 1 OptionType.call ExerciseStyle.european
    (by norm_num) (by norm_num) (by norm_num) (by norm_num)]
  rw [if_pos ((crr_up_sub_down_eq_zero_iff 0 1 1 (by norm_num) (by norm_num)).mpr rfl)]

/-- C3 (amended): `price_binomial_option` fails with `InvalidParameter` iff
`spot ≤ 0 ∨ strike ≤ 0 ∨ maturity ≤ 0 ∨ steps < 1`.  On inputs passing those
checks it does NOT always reduce to `InvalidModel`-or-value: when
`volatility = 0` (which makes `up = down`) it crashes with an unhandled
`ZeroDivisionError`; when `volatility ≠ 0` it fails with `InvalidModel` iff
the risk-neutral probability lies outside `[0, 1]`, and otherwise returns a
value. -/
theorem price_binomial_failure_characterization
    (spot strike rate volatility maturity dividendYield : ℝ) (steps : ℕ)
    (optionType : OptionType) (exercise : ExerciseStyle) :
    ((∃ f, price_binomial_option spot strike rate volatility maturity steps optionType
        exercise dividendYield = .error (.invalidParameter f)) ↔
      (spot ≤ 0 ∨ strike ≤ 0 ∨ maturity ≤ 0 ∨ steps < 1)) ∧
    (0 < spot → 0 < strike → 0 < maturity → 1 ≤ steps →
      (price_binomial_option spot strike rate volatility maturity steps optionType
          exercise dividendYield = .error .zeroDivision ↔ volatility = 0)) ∧
    (0 < spot → 0 < strike → 0 < maturity → 1 ≤ steps → volatility ≠ 0 →
      (price_binomial_option spot strike rate volatility maturity steps optionType
          exercise dividendYield = .error .invalidModel ↔
        ¬(0 ≤ crrProbUp rate dividendYield volatility maturity steps ∧
          crrProbUp rate dividendYield volatility maturity steps ≤ 1))) ∧
    (0 < spot → 0 < strike → 0 < maturity → 1 ≤ steps → volatility ≠ 0 →
      0 ≤ crrProbUp rate dividendYield volatility maturity steps →
      crrProbUp rate dividendYield volatility maturity steps ≤ 1 →
      ∃ x, price_binomial_option spot strike rate volatility maturity steps optionType
        exercise dividendYield = .ok x) := by
  refine ⟨⟨?_, ?_⟩, ?_, ?_, ?_⟩
  · intro ⟨f, hf⟩
    by_contra hcon
    push_neg at hcon
    obtain ⟨h1, h2, h3, h4⟩ := hcon
    rw [price_binomial_option_cases spot strike rate volatility maturity dividendYield steps
      optionType exercise h1 h2 h3 h4] at hf
    by_cases hz : crrUp volatility maturity steps - crrDown volatility maturity steps = 0
    · rw [if_pos hz] at hf
      simp at hf
    · rw [if_neg hz] at hf
      by_cases hp : ¬(0 ≤ crrProbUp rate dividendYield volatility maturity steps ∧
          crrProbUp rate dividendYield volatility maturity steps ≤ 1)
      · rw [if_pos hp] at hf
        simp at hf
      · rw [if_neg hp] at hf
        simp at hf
  · intro hcond
    by_cases h1 : spot ≤ 0
    · exact ⟨.spot, by simp only [price_binomial_option]; rw [if_pos h1]⟩
    by_cases h2 : strike ≤ 0
    · exact ⟨.strike, by simp only [price_binomial_option]; rw [if_neg h1, if_pos h2]⟩
    by_cases h3 : maturity ≤ 0
    · exact ⟨.maturity, by simp only [price_binomial_option]; rw [if_neg h1, if_neg h2, if_pos h3]⟩
    by_cases h4 : steps < 1
    · exact ⟨.steps, by
        simp only [price_binomial_option]
        rw [if_neg h1, if_neg h2, if_neg h3, if_pos h4]⟩
    · tauto
  · intro hspot hstrike hmat hsteps
    rw [price_binomial_option_cases spot strike rate volatility maturity dividendYield steps
      optionType exercise hspot hstrike hmat hsteps,
      ← crr_up_sub_down_eq_zero_iff volatility maturity steps hmat hsteps]
    by_cases hz : crrUp volatility maturity steps - crrDown volatility maturity steps = 0
    · rw [if_pos hz]
      simp [hz]
    · rw [if_neg hz]
      simp only [hz, iff_false]
      by_cases hp : ¬(0 ≤ crrProbUp rate dividendYield volatility maturity steps ∧
          crrProbUp rate dividendYield volatility maturity steps ≤ 1)
      · rw [if_pos hp]
        simp
      · rw [if_neg hp]
        simp
  · intro hspot hstrike hmat hsteps hvol
    rw [price_binomial_option_cases spot strike rate volatility maturity dividendYield steps
      optionType exercise hspot hstrike hmat hsteps,
      if_neg (crr_up_sub_down_ne_zero volatility maturity steps hmat hsteps hvol)]
    by_cases hp : ¬(0 ≤ crrProbUp rate dividendYield volatility maturity steps ∧
        crrProbUp rate dividendYield volatility maturity steps ≤ 1)
    · rw [if_pos hp]
      simp [hp]
    · rw [if_neg hp]
      simp [hp]
  · intro hspot hstrike hmat hsteps hvol hp0 hp1
    exact ⟨_, price_binomial_option_ok_eq spot strike rate volatility maturity dividendYield
      steps optionType exercise hspot hstrike hmat hsteps hvol hp0 hp1⟩

/-- Witness for the amended C3: at `volatility = 1` and benign parameters the
engine returns a value. -/
theorem price_binomial_failure_characterization_witness :
    ∃ x, price_binomial_option 1 1 0 1 1 1 OptionType.put ExerciseStyle.american 0 = .ok x := by
  obtain ⟨h0, h1⟩ := crrProbUp_zero_drift_mem 1 1 1 (by norm_num) (by norm_num) (by norm_num)
  exact (price_binomial_failure_characterization 1 1 0 1 1 0 1 OptionType.put
    ExerciseStyle.american).2.2.2 (by norm_num) (by norm_num) (by norm_num) (by norm_num)
    (by norm_num) h0 h1

/-! ## Lemmas about the Monte Carlo engine -/

/-- On parameter sets passing `_validate_inputs`, `price_monte_carlo_option`
returns the discounted average of the per-path payoffs. -/
theorem price_monte_carlo_option_ok
    (spot rate volatility maturity : ℝ) (steps paths : ℕ) (payoff : List ℝ → ℝ)
    (dividendYield : ℝ) (z : ℕ → ℝ)
    (hspot : 0 < spot) (hvol : 0 ≤ volatility) (hmat : 0 < maturity)
    (hsteps : 1 ≤ steps) (hpaths : 1 ≤ paths) :
    price_monte_carlo_option spot rate volatility maturity steps paths payoff
        dividendYield z =
      .ok (Real.exp (-rate * maturity) *
        ((∑ j ∈ Finset.range paths,
            payoff (simulate_path spot rate volatility dividendYield maturity steps
              fun k => z (j * steps + k))) / paths)) := by
  simp only [price_monte_carlo_option]
  rw [if_neg (not_le.mpr hspot), if_neg (not_lt.mpr hvol), if_neg (not_le.mpr hmat),
    if_neg (by omega : ¬ steps < 1), if_neg (by omega : ¬ paths < 1)]

/-- Entry `k ≤ steps` of a simulated path is the running product `prices[k]`. -/
theorem simulate_path_getD (spot rate volatility dividendYield maturity : ℝ)
    (steps : ℕ) (z : ℕ → ℝ) (k : ℕ) (hk : k < steps + 1) :
    (simulate_path spot rate volatility dividendYield maturity steps z).getD k 0 =
      pathPrice spot ((rate - dividendYield - 0.5 * volatility * volatility) * (maturity / steps))
        (volatility * Real.sqrt (maturity / steps)) z k := by
  unfold simulate_path
  rw [List.getD_eq_getElem?_getD]
  simp [List.getElem?_range hk]

/-- A simulated path has `steps + 1` entries. -/
theorem simulate_path_length (spot rate volatility dividendYield maturity : ℝ)
    (steps : ℕ) (z : ℕ → ℝ) :
    (simulate_path spot rate volatility dividendYield maturity steps z).length = steps + 1 := by
  simp [simulate_path]

/-- `prices[k]` depends only on the first `k` draws of the stream. -/
theorem pathPrice_congr (spot drift diffusion : ℝ) (z1 z2 : ℕ → ℝ) :
    ∀ k, (∀ t, t < k → z1 t = z2 t) →
      pathPrice spot drift diffusion z1 k = pathPrice spot drift diffusion z2 k := by
  intro k
  induction k with
  | zero => intro _; rfl
  | succ k ih =>
      intro h
      show pathPrice spot drift diffusion z1 k * Real.exp (drift + diffusion * z1 k) = _
      rw [ih (fun t ht => h t (by omega)), h k (by omega)]
      rfl

/-- With zero diffusion the path is the deterministic exponential ramp,
independently of the draw stream. -/
theorem pathPrice_eq_exp (spot drift diffusion : ℝ) (z : ℕ → ℝ) (hdiff : diffusion = 0) :
    ∀ k, pathPrice spot drift diffusion z k = spot * Real.exp (drift * k) := by
  subst hdiff
  intro k
  induction k with
  | zero => simp [pathPrice]
  | succ k ih =>
      show pathPrice spot drift 0 z k * Real.exp (drift + 0 * z k) = _
      rw [ih, mul_assoc, ← Real.exp_add]
      congr 2
      push_cast
      ring

/-- C2: on every valid input, `price_monte_carlo_option` returns exactly
`exp(-rate*maturity) * (∑ payoffs) / paths`, where trial `j`'s path has
`steps + 1` entries, starts at `spot`, and each step multiplies the current
price by `exp(drift + diffusion * z)` with
`drift = (rate - dividendYield - 0.5·σ²)·(maturity/steps)`,
`diffusion = σ·sqrt(maturity/steps)` and `z` the next draw of the stream. -/
theorem price_monte_carlo_closed_form
    (spot rate volatility maturity : ℝ) (steps paths : ℕ) (payoff : List ℝ → ℝ)
    (dividendYield : ℝ) (z : ℕ → ℝ)
    (hspot : 0 < spot) (hvol : 0 ≤ volatility) (hmat : 0 < maturity)
    (hsteps : 1 ≤ steps) (hpaths : 1 ≤ paths) :
    price_monte_carlo_option spot rate volatility maturity steps paths payoff
        dividendYield z =
      .ok (Real.exp (-(rate * maturity)) *
        (∑ j ∈ Finset.range paths,
          payoff (simulate_path spot rate volatility dividendYield maturity steps
            fun k => z (j * steps + k))) / paths) ∧
    ∀ j : ℕ,
      (simulate_path spot rate volatility dividendYield maturity steps
          fun k => z (j * steps + k)).length = steps + 1 ∧
      (simulate_path spot rate volatility dividendYield maturity steps
          fun k => z (j * steps + k)).getD 0 0 = spot ∧
      ∀ k, k < steps →
        (simulate_path spot rate volatility dividendYield maturity steps
            fun i => z (j * steps + i)).getD (k + 1) 0 =
          (simulate_path spot rate volatility dividendYield maturity steps
              fun i => z (j * steps + i)).getD k 0 *
            Real.exp ((rate - dividendYield - 0.5 * volatility * volatility) * (maturity / steps)
              + volatility * Real.sqrt (maturity / steps) * z (j * steps + k)) := by
  constructor
  · rw [price_monte_carlo_option_ok spot rate volatility maturity steps paths payoff
      dividendYield z hspot hvol hmat hsteps hpaths]
    rw [neg_mul, mul_div_assoc]
  · intro j
    refine ⟨simulate_path_length _ _ _ _ _ _ _, ?_, ?_⟩
    · rw [simulate_path_getD _ _ _ _ _ _ _ 0 (by omega)]
      rfl
    · intro k hk
      rw [simulate_path_getD _ _ _ _ _ _ _ (k + 1) (by omega),
        simulate_path_getD _ _ _ _ _ _ _ k (by omega)]
      rfl

/-- Witness for C2 at `spot = 1`, `rate = 0`, `volatility = 0`,
`maturity = 1`, one step, one path, the zero payoff and the zero stream. -/
theorem price_monte_carlo_closed_form_witness :
    price_monte_carlo_option 1 0 0 1 1 1 (fun _ => (0 : ℝ)) 0 (fun _ => (0 : ℝ)) =
      .ok (Real.exp (-(0 * 1)) * (∑ _j ∈ Finset.range 1, (0 : ℝ)) / ((1 : ℕ) : ℝ)) :=
  (price_monte_carlo_closed_form 1 0 0 1 1 1 (fun _ => (0 : ℝ)) 0 (fun _ => (0 : ℝ))
    (by norm_num) (by norm_num) (by norm_num) (by norm_num) (by norm_num)).1

/-- C8: the result of `price_monte_carlo_option` is a function of the inputs
and the first `paths * steps` draws of the generator stream alone — two runs
whose streams agree on those draws (in particular, two runs seeded
identically) return exactly the same value. -/
theorem price_monte_carlo_deterministic_in_draws
    (spot rate volatility maturity : ℝ) (steps paths : ℕ) (payoff : List ℝ → ℝ)
    (dividendYield : ℝ) (z1 z2 : ℕ → ℝ)
    (h : ∀ t, t < paths * steps → z1 t = z2 t) :
    price_monte_carlo_option spot rate volatility maturity steps paths payoff
        dividendYield z1 =
      price_monte_carlo_option spot rate volatility maturity steps paths payoff
        dividendYield z2 := by
  have hsum : (∑ j ∈ Finset.range paths,
      payoff (simulate_path spot rate volatility dividendYield maturity steps
        fun k => z1 (j * steps + k))) =
      ∑ j ∈ Finset.range paths,
        payoff (simulate_path spot rate volatility dividendYield maturity steps
          fun k => z2 (j * steps + k)) := by
    refine Finset.sum_congr rfl ?_
    intro j hj
    have hjp : j < paths := Finset.mem_range.mp hj
    congr 1
    unfold simulate_path
    refine List.map_congr_left ?_
    intro a ha
    have halt : a < steps + 1 := List.mem_range.mp ha
    refine pathPrice_congr _ _ _ _ _ a ?_
    intro t ht
    have e1 : j * steps + t < (j + 1) * steps := by
      rw [Nat.succ_mul]
      omega
    have e2 : (j + 1) * steps ≤ paths * steps := Nat.mul_le_mul_right steps (by omega)
    exact h (j * steps + t) (lt_of_lt_of_le e1 e2)
  simp only [price_monte_carlo_option]
  rw [hsum]

/-- Witness for C8: two textually different streams agreeing on the single
consumed draw produce the same price. -/
theorem price_monte_carlo_deterministic_in_draws_witness :
    price_monte_carlo_option 1 0 0 1 1 1 (fun _ => (0 : ℝ)) 0 (fun _ => (0 : ℝ)) =
      price_monte_carlo_option 1 0 0 1 1 1 (fun _ => (0 : ℝ)) 0
        (fun t => if t < 1 then (0 : ℝ) else 1) := by
  refine price_monte_carlo_deterministic_in_draws 1 0 0 1 1 1 (fun _ => (0 : ℝ)) 0 _ _ ?_
  intro t ht
  rw [if_pos (by omega : t < 1)]

/-- C9: with zero volatility each simulated path is the deterministic forward
curve `spot * exp((rate - dividendYield) * k * maturity / steps)` at every
index, and the Monte Carlo price does not depend on the draw stream at all
(identical across seeds). -/
theorem price_monte_carlo_zero_volatility
    (spot rate dividendYield maturity : ℝ) (steps paths : ℕ) (payoff : List ℝ → ℝ)
    (_hspot : 0 < spot) (_hmat : 0 < maturity) (_hsteps : 1 ≤ steps) (_hpaths : 1 ≤ paths) :
    (∀ (z : ℕ → ℝ) (k : ℕ), k < steps + 1 →
      (simulate_path spot rate 0 dividendYield maturity steps z).getD k 0 =
        spot * Real.exp ((rate - dividendYield) * (k * (maturity / steps)))) ∧
    (∀ z1 z2 : ℕ → ℝ,
      price_monte_carlo_option spot rate 0 maturity steps paths payoff dividendYield z1 =
        price_monte_carlo_option spot rate 0 maturity steps paths payoff dividendYield z2) := by
  have hpath : ∀ (z : ℕ → ℝ) (k : ℕ), k < steps + 1 →
      (simulate_path spot rate 0 dividendYield maturity steps z).getD k 0 =
        spot * Real.exp ((rate - dividendYield) * (k * (maturity / steps))) := by
    intro z k hk
    rw [simulate_path_getD _ _ _ _ _ _ _ _ hk, pathPrice_eq_exp _ _ _ _ (zero_mul _) k]
    congr 1
    congr 1
    ring
  refine ⟨hpath, ?_⟩
  intro z1 z2
  have hsum : (∑ j ∈ Finset.range paths,
      payoff (simulate_path spot rate 0 dividendYield maturity steps
        fun k => z1 (j * steps + k))) =
      ∑ j ∈ Finset.range paths,
        payoff (simulate_path spot rate 0 dividendYield maturity steps
          fun k => z2 (j * steps + k)) := by
    refine Finset.sum_congr rfl ?_
    intro j _
    congr 1
    unfold simulate_path
    refine List.map_congr_left ?_
    intro a _
    rw [pathPrice_eq_exp _ _ _ _ (zero_mul _) a, pathPrice_eq_exp _ _ _ _ (zero_mul _) a]
  simp only [price_monte_carlo_option]
  rw [hsum]

/-- Witness for C9: with one step of length one and zero rates the terminal
path entry equals the spot. -/
theorem price_monte_carlo_zero_volatility_witness :
    (simulate_path 1 0 0 0 1 1 (fun _ => (0 : ℝ))).getD 1 0 =
      1 * Real.exp ((0 - 0) * (((1 : ℕ) : ℝ) * (1 / ((1 : ℕ) : ℝ)))) :=
  (price_monte_carlo_zero_volatility 1 0 0 1 1 1 (fun _ => (0 : ℝ))
    (by norm_num) (by norm_num) (by norm_num) (by norm_num)).1 (fun _ => (0 : ℝ)) 1 (by omega)

/-! ## Lemmas about the payoff expression evaluator -/

/-- Evaluating a bare name is namespace lookup. -/
theorem evalExpr_name (l : PyName → Option PyVal) (n : PyName) :
    evalExpr l (.name n) = lookupName l n := by
  simp only [evalExpr]

/-- On a nonempty path, a successful evaluation makes the payoff closure
return the `float` conversion of the value. -/
theorem exprPayoff_of_eval_ok (code : PExpr) (extra : PyName → Option PyVal)
    (path : List ℝ) (v : PyVal) (h : path ≠ [])
    (hv : evalExpr (localVars path extra) code = .ok v) :
    exprPayoff code extra path = toFloat v := by
  unfold exprPayoff
  rw [if_neg (by simp [List.isEmpty_iff, h]), hv]

/-- On a nonempty path, an evaluation exception propagates out of the
payoff closure. -/
theorem exprPayoff_of_eval_error (code : PExpr) (extra : PyName → Option PyVal)
    (path : List ℝ) (e : EvalError) (h : path ≠ [])
    (hv : evalExpr (localVars path extra) code = .error e) :
    exprPayoff code extra path = .error e := by
  unfold exprPayoff
  rw [if_neg (by simp [List.isEmpty_iff, h]), hv]

/-- C7 counterexample: the expression `1 or nosuchname` mentions the name
`nosuchname`, which is bound by neither the locals nor the sandbox globals,
yet CPython's short-circuiting `or` never evaluates it: the payoff returns
`1.0` instead of failing with `PayoffEvalError`, so "fails ... if the
expression references an undefined name" is false as stated. -/
theorem expression_payoff_shortcircuit_counterexample :
    refersTo (PExpr.orElse (.const 1) (.name (.other 0))) (.other 0) = true ∧
    localVars [1] (fun _ => none) (.other 0) = none ∧
    safeGlobals (.other 0) = none ∧
    exprPayoff (PExpr.orElse (.const 1) (.name (.other 0))) (fun _ => none) [1] = .ok 1 := by
  refine ⟨by decide, rfl, rfl, ?_⟩
  have htr : truthy (PyVal.num 1) = true := by
    simp [truthy]
  have heval : evalExpr (localVars [1] fun _ => none)
      (PExpr.orElse (.const 1) (.name (.other 0))) = .ok (.num 1) := by
    simp only [evalExpr]
    rw [htr]
    simp
  rw [exprPayoff_of_eval_ok _ _ _ _ (by simp) heval]
  rfl

/-- C7 (amended): `build_expression_payoff` fails with `PayoffCompileError`
exactly when compilation fails (the input does not parse as a single
expression) and otherwise returns the payoff closure.  The closure fails
with `PayoffEvalError` when evaluation *reaches* an undefined name — a bare
undefined name, or an undefined operand of a strict operator, evaluated
left to right with nothing executed past the failure — and when the final
value is non-numeric (such as the raw `path` list); but an expression may
mention an undefined name and still succeed when short-circuit evaluation
skips it. -/
theorem build_expression_payoff_error_behaviour (extra : PyName → Option PyVal) :
    (build_expression_payoff none extra = .error .parseError) ∧
    (∀ code : PExpr, build_expression_payoff (some code) extra = .ok (exprPayoff code extra)) ∧
    (∀ (k : ℕ) (path : List ℝ), path ≠ [] → extra (.other k) = none →
      exprPayoff (.name (.other k)) extra path = .error (.nameError (.other k))) ∧
    (∀ (k : ℕ) (path : List ℝ) (op : BinOp) (b : PExpr), path ≠ [] → extra (.other k) = none →
      exprPayoff (.binop op (.name (.other k)) b) extra path =
        .error (.nameError (.other k))) ∧
    (∀ path : List ℝ, path ≠ [] → extra .path = none →
      exprPayoff (.name .path) extra path = .error .typeError) := by
  have hname : ∀ (k : ℕ) (path : List ℝ), extra (.other k) = none →
      lookupName (localVars path extra) (.other k) = .error (.nameError (.other k)) := by
    intro k path hk
    unfold lookupName localVars
    rw [hk]
    rfl
  refine ⟨rfl, fun _ => rfl, ?_, ?_, ?_⟩
  · intro k path hpath hk
    exact exprPayoff_of_eval_error _ _ _ _ hpath ((evalExpr_name _ _).trans (hname k path hk))
  · intro k path op b hpath hk
    refine exprPayoff_of_eval_error _ _ _ _ hpath ?_
    simp only [evalExpr]
    rw [hname k path hk]
  · intro path hpath hp
    have heval : evalExpr (localVars path extra) (.name .path) = .ok (.plist path) := by
      rw [evalExpr_name]
      unfold lookupName localVars
      rw [hp]
      rfl
    rw [exprPayoff_of_eval_ok _ _ _ _ hpath heval]
    rfl

/-- Witness for the amended C7: with empty extra context, the bare undefined
name fails with a `NameError`, and the list-valued `path` fails the float
conversion. -/
theorem build_expression_payoff_error_behaviour_witness :
    exprPayoff (.name (.other 0)) (fun _ => none) [1] = .error (.nameError (.other 0)) ∧
    exprPayoff (.name .path) (fun _ => none) [1] = .error .typeError := by
  obtain ⟨-, -, h3, -, h5⟩ := build_expression_payoff_error_behaviour (fun _ => none)
  exact ⟨h3 0 [1] (by simp) rfl, h5 [1] (by simp) rfl⟩

/-- C10 counterexample: with `extra_context = {"path": {}}` (any value), the
key set is NOT disjoint from the five standard names, yet `s`, `st`, `spot`
and `step` all still evaluate to their path-derived values — they are
computed from the `path` argument, not read back from the namespace entry
`path` — so "only when the keys are disjoint from those five names do
s = st = path[-1], spot = path[0], step = len(path)-1 hold" fails at this
input. -/
theorem extra_context_only_when_counterexample :
    (fun n => if n = PyName.path then some PyVal.pydict else none) PyName.path ≠ none ∧
    exprPayoff (.name .s)
      (fun n => if n = PyName.path then some PyVal.pydict else none) [1, 2] = .ok 2 ∧
    exprPayoff (.name .st)
      (fun n => if n = PyName.path then some PyVal.pydict else none) [1, 2] = .ok 2 ∧
    exprPayoff (.name .spot)
      (fun n => if n = PyName.path then some PyVal.pydict else none) [1, 2] = .ok 1 ∧
    exprPayoff (.name .step)
      (fun n => if n = PyName.path then some PyVal.pydict else none) [1, 2] = .ok 1 := by
  refine ⟨by simp, ?_, ?_, ?_, ?_⟩
  · have heval : evalExpr
        (localVars [1, 2] fun n => if n = PyName.path then some PyVal.pydict else none)
        (.name .s) = .ok (.num 2) := rfl
    rw [exprPayoff_of_eval_ok _ _ _ _ (by simp) heval]
    rfl
  · have heval : evalExpr
        (localVars [1, 2] fun n => if n = PyName.path then some PyVal.pydict else none)
        (.name .st) = .ok (.num 2) := rfl
    rw [exprPayoff_of_eval_ok _ _ _ _ (by simp) heval]
    rfl
  · have heval : evalExpr
        (localVars [1, 2] fun n => if n = PyName.path then some PyVal.pydict else none)
        (.name .spot) = .ok (.num 1) := rfl
    rw [exprPayoff_of_eval_ok _ _ _ _ (by simp) heval]
    rfl
  · have heval : evalExpr
        (localVars [1, 2] fun n => if n = PyName.path then some PyVal.pydict else none)
        (.name .step) = .ok (.num ((([1, 2] : List ℝ).length : ℝ) - 1)) := rfl
    rw [exprPayoff_of_eval_ok _ _ _ _ (by simp) heval]
    show Except.ok ((([1, 2] : List ℝ).length : ℝ) - 1) = Except.ok 1
    norm_num

/-- C10 (amended): the extra-context entries are bound after the standard
bindings, so a key equal to one of `path`, `s`, `st`, `spot`, `step`
shadows the path-derived binding of that name; when the extra-context keys
avoid a standard name, that name keeps its path-derived value (`s`/`st` the
terminal price, `spot` the initial price, `step` the length minus one,
`path` the full list) — shadowing `path` alone does not disturb the other
four, which are derived from the path argument itself. -/
theorem extra_context_shadowing (extra : PyName → Option PyVal) (path : List ℝ)
    (h : path ≠ []) :
    (∀ n v, extra n = some v → localVars path extra n = some v) ∧
    (∀ (n : PyName) (x : ℝ), extra n = some (.num x) →
      exprPayoff (.name n) extra path = .ok x) ∧
    (extra .s = none →
      exprPayoff (.name .s) extra path = .ok (path.getD (path.length - 1) 0)) ∧
    (extra .st = none →
      exprPayoff (.name .st) extra path = .ok (path.getD (path.length - 1) 0)) ∧
    (extra .spot = none → exprPayoff (.name .spot) extra path = .ok (path.getD 0 0)) ∧
    (extra .step = none →
      exprPayoff (.name .step) extra path = .ok ((path.length : ℝ) - 1)) ∧
    (extra .path = none →
      evalExpr (localVars path extra) (.name .path) = .ok (.plist path)) := by
  have hshadow : ∀ n v, extra n = some v → localVars path extra n = some v := by
    intro n v hv
    unfold localVars
    rw [hv]
  have hstd : ∀ (n : PyName) (v : PyVal), extra n = none → pathLocals path n = some v →
      evalExpr (localVars path extra) (.name n) = .ok v := by
    intro n v hn hv
    rw [evalExpr_name]
    unfold lookupName localVars
    rw [hn, hv]
  refine ⟨hshadow, ?_, ?_, ?_, ?_, ?_, ?_⟩
  · intro n x hv
    have heval : evalExpr (localVars path extra) (.name n) = .ok (.num x) := by
      rw [evalExpr_name]
      unfold lookupName
      rw [hshadow n (.num x) hv]
    rw [exprPayoff_of_eval_ok _ _ _ _ h heval]
    rfl
  · intro hnone
    rw [exprPayoff_of_eval_ok _ _ _ _ h (hstd .s _ hnone rfl)]
    rfl
  · intro hnone
    rw [exprPayoff_of_eval_ok _ _ _ _ h (hstd .st _ hnone rfl)]
    rfl
  · intro hnone
    rw [exprPayoff_of_eval_ok _ _ _ _ h (hstd .spot _ hnone rfl)]
    rfl
  · intro hnone
    rw [exprPayoff_of_eval_ok _ _ _ _ h (hstd .step _ hnone rfl)]
    rfl
  · intro hnone
    exact hstd .path _ hnone rfl

/-- Witness for the amended C10: an extra-context entry named `s` shadows
the terminal price. -/
theorem extra_context_shadowing_witness :
    exprPayoff (.name .s)
      (fun n => if n = PyName.s then some (PyVal.num 99) else none) [1, 2] = .ok 99 :=
  (extra_context_shadowing (fun n => if n = PyName.s then some (PyVal.num 99) else none)
    [1, 2] (by simp)).2.1 .s 99 rfl

end OptionPricing
